import Mathlib

/-!
Verification development for `story_processor.py` (avdhoottt/LangChainAssignment).

The Python source is shallowly embedded below.  Python strings are modelled as
`List Char` (`Str`), so that the string primitives the program uses
(`in`, `split`, `strip`, `lower`, `join`, `replace`, negative indexing) can be
defined by structural recursion and reasoned about directly.  Embedding vectors
are lists of exact integers (`List ℤ`): the sentence-transformer model is an
external collaborator passed in as an uninterpreted function, and nothing in
the program depends on fractional vector components, only on the ordered field
operations the distance computation uses.  The behaviour of
the two library calls whose results the program consumes is modelled from their
documented contracts: `faiss.IndexFlatL2.search` (exhaustive squared-L2 search
returning exactly `k` `(id, distance)` pairs, padded with id `-1` and distance
`FLT_MAX` when `k` exceeds the index size) and langchain's
`RecursiveCharacterTextSplitter.split_text` (translated function by function
further below).  Fallible code returns `Except Err`.
-/

namespace StoryProc

/-- Python strings, modelled as lists of characters. -/
abbrev Str := List Char

/-- Python's whitespace set for `str.strip` (ASCII part, which is all the
program ever feeds it). -/
def pyIsSpace (c : Char) : Bool :=
  c = ' ' ∨ c = '\t' ∨ c = '\n' ∨ c = '\r' ∨ c = Char.ofNat 11 ∨ c = Char.ofNat 12

/-- Python `str.strip()`: drop whitespace from both ends. -/
def pyStrip (s : Str) : Str :=
  ((s.dropWhile pyIsSpace).reverse.dropWhile pyIsSpace).reverse

/-- Python `str.lower()` (ASCII case folding, which is all the program needs). -/
def pyLower (s : Str) : Str := s.map Char.toLower

/-- `needle.isPrefixOf hay`, by structural recursion. -/
def isPref : Str → Str → Bool
  | [], _ => true
  | _ :: _, [] => false
  | a :: as, b :: bs => a = b && isPref as bs

/-- Python's substring test `needle in hay`. -/
def pyIn : Str → Str → Bool
  | needle, [] => needle = []
  | needle, c :: rest => isPref needle (c :: rest) || pyIn needle rest

/-- Leftmost occurrence split: `breakOn sep text = some (pre, post)` when
`text = pre ++ sep ++ post` with `pre` shortest, `none` when `sep` does not
occur in `text`. -/
def breakOn (sep : Str) : Str → Option (Str × Str)
  | [] => if sep = [] then some ([], []) else none
  | c :: rest =>
    if isPref sep (c :: rest) then some ([], (c :: rest).drop sep.length)
    else
      match breakOn sep rest with
      | some (pre, post) => some (c :: pre, post)
      | none => none

/-- Worker for Python `str.split(sep)` with nonempty `sep`; `fuel` bounds the
recursion depth (any `fuel > text.length` is enough, see `pySplitF_join`). -/
def pySplitF (sep : Str) : Nat → Str → List Str
  | 0, text => [text]
  | fuel + 1, text =>
    match breakOn sep text with
    | none => [text]
    | some (pre, post) => pre :: pySplitF sep fuel post

/-- Python `str.split(sep)` for a nonempty separator (Python raises on an empty
separator; the program never passes one). -/
def pySplit (sep text : Str) : List Str :=
  if sep = [] then [text] else pySplitF sep (text.length + 1) text

/-- Python `sep.join(parts)`. -/
def pyJoin (sep : Str) : List Str → Str
  | [] => []
  | [d] => d
  | d :: rest => d ++ sep ++ pyJoin sep rest

/-- Python `s.replace(old, new)`: replace every non-overlapping occurrence,
left to right (equivalently: split on `old`, join with `new`).  Guarded on an
empty `old`, which the program never passes. -/
def pyReplace (s old new : Str) : Str :=
  if old = [] then s else pyJoin new (pySplit old s)

/-- Positional list access. -/
def nthOpt {α : Type} : List α → Nat → Option α
  | [], _ => none
  | a :: _, 0 => some a
  | _ :: as, n + 1 => nthOpt as n

/-- Python list indexing `xs[i]`, including negative indices; `none` models an
`IndexError`. -/
def pyGet {α : Type} (xs : List α) (i : ℤ) : Option α :=
  if 0 ≤ i ∧ i < (xs.length : ℤ) then nthOpt xs i.toNat
  else if -(xs.length : ℤ) ≤ i ∧ i < 0 then nthOpt xs (i + (xs.length : ℤ)).toNat
  else none

/-- The structured record produced by a successful lookup
(`CharacterInfo`, story_processor.py lines 13-28).  A relation entry
`{"name": ..., "relation": ...}` is modelled as `Relation`. -/
structure Relation where
  name : Str
  relation : Str
deriving DecidableEq, Repr

structure CharacterInfo where
  name : Str
  storyTitle : Str
  summary : Str
  relations : List Relation
  characterType : Str
deriving DecidableEq, Repr

/-- Lines 120-127: derive `character_type` from the lowercased concatenated
"character type" aspect text by the fixed priority chain of substring tests. -/
def characterTypeOf (typeText : Str) : Str :=
  let t := pyLower typeText
  if pyIn ("protagonist").data t then ("Protagonist").data
  else if pyIn ("antagonist").data t then ("Antagonist").data
  else if pyIn ("main").data t then ("Main Character").data
  else ("Supporting Character").data

/-- Lines 111-118: build the (uncapped) relations list.  The `if relations_text:`
truthiness guard on line 113 is the outer `if`; the cap `relations[:3]` is
applied at record construction (line 133), not here. -/
def relationsOf (relationsText name : Str) : List Relation :=
  if relationsText = [] then []
  else
    ((pySplit (['.']) relationsText).filter (fun s => pyIn name s)).map
      (fun s => { name := ("Unknown").data, relation := pyStrip s })

/-- Modelled from the spec's words (§4.6 Step 4, `relations`): split the
relations aspect text on `.`, keep sentences containing a literal occurrence of
the character name, map each to `{name: "Unknown", relation: trimmed}`, keep at
most the first 3.  Used only to compare the spec's description with the code's
`relationsOf`. -/
def specRelations (relationsText name : Str) : List Relation :=
  (((pySplit (['.']) relationsText).filter (fun s => pyIn name s)).map
      (fun s => { name := ("Unknown").data, relation := pyStrip s })).take 3

/-! ### Chunker: langchain `RecursiveCharacterTextSplitter`

Constructed on lines 33-37 with `chunk_size=1000`, `chunk_overlap=200`,
`length_function=len` and the default separators `["\n\n", "\n", " ", ""]`,
default `keep_separator=True`, `is_separator_regex=False`,
`strip_whitespace=True`.  The library's `split_text` / `_split_text` /
`_split_text_with_regex` / `_merge_splits` / `_join_docs` are translated one
for one below (separators are escaped before `re.split`, so all splitting is
plain-string splitting). -/

def chunkSize : Nat := 1000

def chunkOverlap : Nat := 200

/-- Separator selection loop at the top of `_split_text`: the default is the
last separator; the first separator that is empty or occurs in the text wins,
and the remaining suffix becomes `new_separators`. -/
def chooseSep (text : Str) : List Str → Str × List Str
  | [] => ([], [])
  | s :: rest =>
    if s = [] then ([], [])
    else if pyIn s text then (s, rest)
    else if rest = [] then (s, [])
    else chooseSep text rest

/-- `_split_text_with_regex(text, separator, keep_separator=True)` followed by
the empty-string filter: the first raw piece, then each separator glued onto
the piece that follows it; an empty separator splits into single characters. -/
def splitWithSep (sep : Str) (text : Str) : List Str :=
  if sep = [] then (text.map (fun c => [c])).filter (fun s => ¬s = [])
  else
    match pySplit sep text with
    | [] => []
    | t0 :: ts => (t0 :: ts.map (fun t => sep ++ t)).filter (fun s => ¬s = [])

/-- `_join_docs(docs, separator)`: join, strip, and drop the chunk when it
strips to nothing. -/
def joinDocs (sep : Str) (docs : List Str) : Option Str :=
  let text := pyStrip (pyJoin sep docs)
  if text = [] then none else some text

/-- The overlap `while`-pop inside `_merge_splits`.  (When `current_doc` is
empty the tracked total is `0` and Python's loop condition is false as well, so
returning immediately on `[]` agrees with every reachable state.) -/
def popOverlap (sepLen dLen : ℤ) : List Str → ℤ → List Str × ℤ
  | [], total => ([], total)
  | c :: cs, total =>
    if total > (chunkOverlap : ℤ) ∨
        (total + dLen + sepLen > (chunkSize : ℤ) ∧ total > 0) then
      popOverlap sepLen dLen cs (total - ((c.length : ℤ) + if cs = [] then 0 else sepLen))
    else (c :: cs, total)

/-- A dropped-or-kept chunk, as a list. -/
def optToList : Option Str → List Str
  | none => []
  | some d => [d]

/-- The body of `_merge_splits`, one iteration of the `for d in splits` loop at
a time, carrying `(docs, current_doc, total)`.  When the incoming piece would
overflow `chunk_size`: if `current_doc` is nonempty, its join is emitted and
the overlap `while`-pop runs; either way the piece is then appended and the
total updated (adding `separator_len` exactly when the pre-append
`current_doc` is nonempty, i.e. Python's `len(current_doc) > 1` after the
append). -/
def mergeGo (sep : Str) : List Str → List Str → List Str → ℤ → List Str
  | [], docs, current, _ => docs ++ optToList (joinDocs sep current)
  | d :: rest, docs, current, total =>
    if total + (d.length : ℤ) + (if current = [] then 0 else (sep.length : ℤ)) >
        (chunkSize : ℤ) then
      if current = [] then
        mergeGo sep rest docs (current ++ [d])
          (total + (d.length : ℤ) + (if current = [] then 0 else (sep.length : ℤ)))
      else
        mergeGo sep rest (docs ++ optToList (joinDocs sep current))
          ((popOverlap (sep.length : ℤ) (d.length : ℤ) current total).1 ++ [d])
          ((popOverlap (sep.length : ℤ) (d.length : ℤ) current total).2 +
            (d.length : ℤ) +
            (if (popOverlap (sep.length : ℤ) (d.length : ℤ) current total).1 = []
              then 0 else (sep.length : ℤ)))
    else
      mergeGo sep rest docs (current ++ [d])
        (total + (d.length : ℤ) + (if current = [] then 0 else (sep.length : ℤ)))

/-- `_merge_splits(splits, separator)`. -/
def mergeSplits (sep : Str) (splits : List Str) : List Str :=
  mergeGo sep splits [] [] 0

/-- The `for s in splits` loop of `_split_text`: good (short) pieces accumulate
and are merged; an over-long piece first flushes the accumulated good pieces,
then is either recursed on (`recFn`, when `new_separators` remain) or emitted
whole. -/
def processSplits (recFn : Str → List Str) : List Str → List Str → List Str
  | [], good => if good = [] then [] else mergeSplits [] good
  | s :: rest, good =>
    if s.length < chunkSize then processSplits recFn rest (good ++ [s])
    else
      (if good = [] then [] else mergeSplits [] good) ++ recFn s ++
        processSplits recFn rest []

/-- `_split_text(text, separators)`.  The recursion always descends to a strict
suffix of the separator list, so `fuel > separators.length` is enough
(`splitText` supplies it); the `_separator` passed to `_merge_splits` is `""`
because `keep_separator=True`. -/
def splitRecF : Nat → Str → List Str → List Str
  | 0, _, _ => []
  | fuel + 1, text, seps =>
    let c := chooseSep text seps
    let splits := splitWithSep c.1 text
    let recFn : Str → List Str :=
      if c.2 = [] then fun s => [s] else fun s => splitRecF fuel s c.2
    processSplits recFn splits []

def defaultSeparators : List Str := [['\n', '\n'], ['\n'], [' '], []]

/-- `split_text(text)` as called on line 48. -/
def splitText (text : Str) : List Str :=
  splitRecF (defaultSeparators.length + 1) text defaultSeparators

/-! ### VectorIndex: `faiss.IndexFlatL2`

Exhaustive squared-L2 nearest-neighbour search.  `search(q, k)` returns exactly
`k` `(id, distance)` pairs: the `min(k, ntotal)` stored vectors nearest to `q`
in ascending distance, padded (per the faiss contract, when `k > ntotal`) with
id `-1` and distance `FLT_MAX`.  Floats are modelled as exact rationals. -/

/-- The IEEE single-precision maximum, the distance faiss reports for padding
entries. -/
def FLT_MAX : ℤ := 340282346638528859811704183484516925440

/-- Squared Euclidean distance. -/
def sqDist (u v : List ℤ) : ℤ := ((u.zip v).map (fun p => (p.1 - p.2) ^ 2)).sum

structure VectorIndex where
  dim : ℕ
  vecs : List (List ℤ)
deriving DecidableEq

def VectorIndex.ntotal (idx : VectorIndex) : ℕ := idx.vecs.length

/-- The candidate list `(id, distance to q)` in insertion (id) order. -/
def hitsFrom (q : List ℤ) (i : ℤ) : List (List ℤ) → List (ℤ × ℤ)
  | [] => []
  | v :: rest => (i, sqDist q v) :: hitsFrom q (i + 1) rest

def hitsOf (idx : VectorIndex) (q : List ℤ) : List (ℤ × ℤ) :=
  hitsFrom q 0 idx.vecs

/-- Result ordering: ascending distance, ties by ascending id. -/
def hitLE (a b : ℤ × ℤ) : Prop := a.2 < b.2 ∨ (a.2 = b.2 ∧ a.1 ≤ b.1)

instance : DecidableRel hitLE := fun a b =>
  decidable_of_iff (a.2 < b.2 ∨ (a.2 = b.2 ∧ a.1 ≤ b.1)) Iff.rfl

instance : IsTotal (ℤ × ℤ) hitLE :=
  ⟨fun a b => by
    unfold hitLE
    rcases lt_trichotomy a.2 b.2 with h | h | h
    · exact Or.inl (Or.inl h)
    · rcases le_total a.1 b.1 with h1 | h1
      · exact Or.inl (Or.inr ⟨h, h1⟩)
      · exact Or.inr (Or.inr ⟨h.symm, h1⟩)
    · exact Or.inr (Or.inl h)⟩

instance : IsTrans (ℤ × ℤ) hitLE :=
  ⟨fun a b c hab hbc => by
    unfold hitLE at *
    rcases hab with h1 | ⟨h1, h1'⟩ <;> rcases hbc with h2 | ⟨h2, h2'⟩
    · exact Or.inl (h1.trans h2)
    · exact Or.inl (h2 ▸ h1)
    · exact Or.inl (h1 ▸ h2)
    · exact Or.inr ⟨h1.trans h2, le_trans h1' h2'⟩⟩

def sortHits (hits : List (ℤ × ℤ)) : List (ℤ × ℤ) := List.insertionSort hitLE hits

/-- `index.search(q, k)`: the `min(k, ntotal)` nearest entries ascending, then
`k - min(k, ntotal)` padding entries `(-1, FLT_MAX)`. -/
def VectorIndex.search (idx : VectorIndex) (q : List ℤ) (k : ℕ) : List (ℤ × ℤ) :=
  let top := (sortHits (hitsOf idx q)).take k
  top ++ List.replicate (k - top.length) ((-1 : ℤ), FLT_MAX)

instance {ε α : Type} [DecidableEq ε] [DecidableEq α] : DecidableEq (Except ε α) :=
  fun a b =>
    match a, b with
    | Except.ok x, Except.ok y => decidable_of_iff (x = y) (by simp)
    | Except.error e, Except.error f => decidable_of_iff (e = f) (by simp)
    | Except.ok _, Except.error _ => Decidable.isFalse (by simp)
    | Except.error _, Except.ok _ => Decidable.isFalse (by simp)

/-! ### Processor state, persistence, and the pipeline -/

/-- Errors the embedded methods can raise.  `noIndex` is the
`ValueError("No index found...")` on line 78, `attrNone` the `AttributeError`
from `None.search` on line 70, `badChunkId` an `IndexError` from `texts[i]` on
line 71, `sourceRead` an `OSError` from `open(source)` on line 102. -/
inductive Err where
  | noIndex
  | attrNone
  | badChunkId
  | sourceRead (source : Str)
deriving DecidableEq, Repr

/-- The mutable fields of `StoryProcessor` (lines 31-42).  `embed` is the
opaque, deterministic sentence-transformer collaborator.  Each metadata dict
`{"source": s}` is modelled by its source string. -/
structure ProcState where
  embed : Str → List ℤ
  index : Option VectorIndex
  texts : List Str
  metadatas : List Str

/-- `StoryProcessor()`: no index, empty store (lines 38-40). -/
def freshState (embed : Str → List ℤ) : ProcState :=
  { embed := embed, index := none, texts := [], metadatas := [] }

/-- The durable artifacts: `story_index.faiss`, `story_store.pkl` (both written
and read whole, `none` = file absent), and the raw story files on disk
(`none` = unreadable). -/
structure FileSystem where
  indexFile : Option VectorIndex
  storeFile : Option (List Str × List Str)
  sources : Str → Option Str

/-- All-or-nothing `Option` traversal: the list comprehension on line 71 raises
at the first failing index. -/
def optMap {α β : Type} (f : α → Option β) : List α → Option (List β)
  | [] => some []
  | a :: as =>
    match f a, optMap f as with
    | some b, some bs => some (b :: bs)
    | _, _ => none

/-- `find_relevant_chunks(query, k=5)` (lines 68-71): embed the query, search
the (possibly absent) index, map returned ids through `self.texts` with Python
indexing. -/
def findRelevantChunks (st : ProcState) (query : Str) (k : ℕ := 5) :
    Except Err (List Str) :=
  match st.index with
  | none => Except.error Err.attrNone
  | some idx =>
    match optMap (pyGet st.texts) ((idx.search (st.embed query) k).map Prod.fst) with
    | some ts => Except.ok ts
    | none => Except.error Err.badChunkId

/-- `process_stories(stories)` (lines 44-66): chunk every story, embed all the
accumulated texts, build a fresh flat index over them, and write both
artifacts. -/
structure Document where
  pageContent : Str
  source : Str

def processStories (st : ProcState) (fs : FileSystem) (stories : List Document) :
    ProcState × FileSystem :=
  let texts := st.texts ++ (stories.map (fun d => splitText d.pageContent)).flatten
  let metadatas := st.metadatas ++
    (stories.map (fun d => (splitText d.pageContent).map (fun _ => d.source))).flatten
  let embeddings := texts.map st.embed
  let index : VectorIndex := { dim := (embeddings.headD []).length, vecs := embeddings }
  ({ st with index := some index, texts := texts, metadatas := metadatas },
   { fs with indexFile := some index, storeFile := some (texts, metadatas) })

/-- Lines 76-85: if no in-memory index, fail unless both artifact files exist,
otherwise load them into the instance fields. -/
def loadIfNeeded (st : ProcState) (fs : FileSystem) : Except Err ProcState :=
  match st.index with
  | some _ => Except.ok st
  | none =>
    match fs.indexFile, fs.storeFile with
    | some idx, some store =>
      Except.ok { st with index := some idx, texts := store.1, metadatas := store.2 }
    | _, _ => Except.error Err.noIndex

/-- Lines 99-103: scan every source referenced by the store for a
case-insensitive occurrence of the name; the matching sources form a set,
modelled as a first-occurrence-ordered duplicate-free list (CPython's set
iteration order is arbitrary; the single-match cases the theorems use are
order-independent). -/
def scanSources (metas : List Str) (fs : FileSystem) (name : Str) :
    Except Err (List Str) :=
  match metas with
  | [] => Except.ok []
  | source :: rest =>
    match fs.sources source with
    | none => Except.error (Err.sourceRead source)
    | some content =>
      match scanSources rest fs name with
      | Except.error e => Except.error e
      | Except.ok res =>
        if pyIn (pyLower name) (pyLower content) then
          Except.ok (source :: res.filter (fun s => ¬s = source))
        else Except.ok res

/-- The four templated aspect queries (lines 87-92). -/
def queryTitle (name : Str) : Str := ("story title ").data ++ name

def querySummary (name : Str) : Str :=
  ("summary of ").data ++ name ++ [Char.ofNat 39] ++ ("s role").data

def queryRelations (name : Str) : Str := ("relationships of ").data ++ name

def queryType (name : Str) : Str := ("character type role of ").data ++ name

/-- `get_character_info(character_name)` (lines 73-135): load if needed,
retrieve all four aspects (k defaults to 5), scan sources for presence, return
`none` (Python `None`) when no source matches, else assemble the record. -/
def getCharacterInfo (st : ProcState) (fs : FileSystem) (characterName : Str) :
    Except Err (Option CharacterInfo) :=
  match loadIfNeeded st fs with
  | Except.error e => Except.error e
  | Except.ok st' =>
    match findRelevantChunks st' (queryTitle characterName),
        findRelevantChunks st' (querySummary characterName),
        findRelevantChunks st' (queryRelations characterName),
        findRelevantChunks st' (queryType characterName) with
    | Except.error e, _, _, _ => Except.error e
    | _, Except.error e, _, _ => Except.error e
    | _, _, Except.error e, _ => Except.error e
    | _, _, _, Except.error e => Except.error e
    | Except.ok _, Except.ok sumChunks, Except.ok relChunks, Except.ok typChunks =>
      match scanSources st'.metadatas fs characterName with
      | Except.error e => Except.error e
      | Except.ok sources =>
        if sources = [] then Except.ok none
        else
          Except.ok (some
            { name := characterName
              storyTitle := pyReplace (sources.headD []) (".txt").data []
              summary := (pyJoin [' '] sumChunks).take 500
              relations := (relationsOf (pyJoin [' '] relChunks) characterName).take 3
              characterType := characterTypeOf (pyJoin [' '] typChunks) })

/-- Duplicate removal keeping first occurrences (the deterministic model of the
`story_sources` set, matching `scanSources`). -/
def dedupFirst : List Str → List Str
  | [] => []
  | s :: rest => s :: (dedupFirst rest).filter (fun x => ¬x = s)

/-- Pure description of `scanSources` when every referenced source is readable:
the sources whose content contains the lowercased name, in first-occurrence
order, without duplicates. -/
def matchingSources (metas : List Str) (read : Str → Option Str) (name : Str) :
    List Str :=
  dedupFirst (metas.filter (fun m =>
    match read m with
    | some content => pyIn (pyLower name) (pyLower content)
    | none => false))

/-! ### Concrete instances used by witnesses and counterexamples -/

/-- A one-dimensional stand-in embedder: the text's length. -/
def lenEmbed : Str → List ℤ := fun s => [(s.length : ℤ)]

/-- C1: an index holding 3 vectors. -/
def c1Index : VectorIndex := { dim := 1, vecs := [[10], [11], [14]] }

/-- C1: a processor with `c1Index` resident and an aligned 3-chunk store. -/
def c1State : ProcState :=
  { embed := lenEmbed
    index := some c1Index
    texts := [("aa").data, ("bb").data, ("cc").data]
    metadatas := [("hero.txt").data] }

/-- C5: a one-document corpus and an initially empty disk. -/
def c5Fs : FileSystem :=
  { indexFile := none, storeFile := none, sources := fun _ => none }

def c5Stories : List Document :=
  [{ pageContent := ("Hi").data, source := ("hero.txt").data }]

/-- C5: the state a fresh processor reaches by loading the artifacts written
for `c5Stories`. -/
def c5StB : ProcState :=
  { embed := lenEmbed
    index := some { dim := 1, vecs := [[2]] }
    texts := [("Hi").data]
    metadatas := [("hero.txt").data] }

/-- The texts a retrieval over aspect query `q` contributes (used to state the
lookup lemmas). -/
def retrievedTexts (st : ProcState) (idx : VectorIndex) (q : Str) : List Str :=
  ((idx.search (st.embed q) 5).map Prod.fst).map (fun i => (pyGet st.texts i).getD [])

/-- C2: a persisted index holding one vector. -/
def c2Idx : VectorIndex := { dim := 1, vecs := [[10]] }

/-- C2: a persisted store holding two texts — misaligned with `c2Idx`. -/
def c2Texts : List Str := [("x").data, ("y").data]

def c2Metas : List Str := [("s.txt").data]

/-- C2: a disk whose index file and store file disagree on length. -/
def c2Fs : FileSystem :=
  { indexFile := some c2Idx
    storeFile := some (c2Texts, c2Metas)
    sources := fun m => if m = ("s.txt").data then some (("Alice").data) else none }

/-- C2: a persisted index holding two vectors — more than `c2TextsB` below. -/
def c2IdxB : VectorIndex := { dim := 1, vecs := [[10], [11]] }

/-- C2: a persisted store holding one text — misaligned with `c2IdxB` in the
index-longer direction. -/
def c2TextsB : List Str := [("x").data]

/-- C2: a disk misaligned in the index-longer direction. -/
def c2FsB : FileSystem :=
  { indexFile := some c2IdxB
    storeFile := some (c2TextsB, c2Metas)
    sources := fun m => if m = ("s.txt").data then some (("Alice").data) else none }

/-- C7: a processor over one chunk from one readable source. -/
def c7State : ProcState :=
  { embed := lenEmbed
    index := some { dim := 1, vecs := [[10]] }
    texts := [("The hero wins").data]
    metadatas := [("hero.txt").data] }

def c7Fs : FileSystem :=
  { indexFile := none, storeFile := none
    sources := fun m =>
      if m = ("hero.txt").data then some (("The hero wins").data) else none }

/-- C8: the hero.txt corpus content from the spec's scenario. -/
def heroContent : Str :=
  ("Alice is the protagonist of the story. Alice and Bob are friends.").data

/-- C8 witness: processor/disk whose single source is `hero.txt`. -/
def c8State : ProcState :=
  { embed := lenEmbed
    index := some { dim := 1, vecs := [[10]] }
    texts := [heroContent]
    metadatas := [("hero.txt").data] }

def c8Fs : FileSystem :=
  { indexFile := none, storeFile := none
    sources := fun m => if m = ("hero.txt").data then some heroContent else none }

/-- C8 counterexample: the same corpus in a source named `hero.md`. -/
def c8mState : ProcState :=
  { embed := lenEmbed
    index := some { dim := 1, vecs := [[10]] }
    texts := [("x").data]
    metadatas := [("hero.md").data] }

def c8mFs : FileSystem :=
  { indexFile := none, storeFile := none
    sources := fun m => if m = ("hero.md").data then some (("Alice is here").data) else none }

/-- C10: a store referencing one readable and one unreadable source. -/
def c10State : ProcState :=
  { embed := lenEmbed
    index := some { dim := 1, vecs := [[10]] }
    texts := [("x").data]
    metadatas := [("a.txt").data, ("b.txt").data] }

def c10Fs : FileSystem :=
  { indexFile := none, storeFile := none
    sources := fun m => if m = ("a.txt").data then some (("x").data) else none }

/-! ## Theorems -/

/-- Claim C3: for every character-type aspect text, the derived character type
follows the fixed priority order of substring tests on the lowercased text:
"protagonist" → Protagonist, else "antagonist" → Antagonist, else "main" →
"Main Character", else "Supporting Character".  In particular a text containing
"antagonist" but not "protagonist" — whether or not it also contains "main" —
classifies as Antagonist. -/
theorem characterType_priority (t : Str) :
    (pyIn ("protagonist").data (pyLower t) = true →
      characterTypeOf t = ("Protagonist").data) ∧
    (pyIn ("protagonist").data (pyLower t) = false →
      pyIn ("antagonist").data (pyLower t) = true →
      characterTypeOf t = ("Antagonist").data) ∧
    (pyIn ("protagonist").data (pyLower t) = false →
      pyIn ("antagonist").data (pyLower t) = false →
      pyIn ("main").data (pyLower t) = true →
      characterTypeOf t = ("Main Character").data) ∧
    (pyIn ("protagonist").data (pyLower t) = false →
      pyIn ("antagonist").data (pyLower t) = false →
      pyIn ("main").data (pyLower t) = false →
      characterTypeOf t = ("Supporting Character").data) := by
  refine ⟨?_, ?_, ?_, ?_⟩ <;> intros <;> simp_all [characterTypeOf]

/-- Witness for C3 at a concrete input: "The main antagonist" contains both
"antagonist" and "main" but not "protagonist", and classifies as Antagonist. -/
theorem characterType_priority_witness :
    pyIn ("protagonist").data (pyLower (("The main antagonist").data)) = false ∧
    pyIn ("antagonist").data (pyLower (("The main antagonist").data)) = true ∧
    pyIn ("main").data (pyLower (("The main antagonist").data)) = true ∧
    characterTypeOf (("The main antagonist").data) = ("Antagonist").data :=
  ⟨by decide, by decide, by decide,
    (characterType_priority (("The main antagonist").data)).2.1 (by decide) (by decide)⟩

/-- Claim C4: the capped relations list the record is built from (lines
111-118 and 133) is exactly the spec's description: split the relations aspect
text on `.`, keep the sentences containing the name literally, map each to
`{name := "Unknown", relation := trimmed}`, keep the first 3; its length is
`min 3 (number of matching sentences)`, so with more than 3 matches exactly 3
are returned.  (The hypothesis excludes only the unreachable corner
`text = "" ∧ name = ""`: the aspect text is a space-join of five retrieved
chunks, never empty.) -/
theorem relations_filter_cap (text name : Str) (h : text ≠ [] ∨ name ≠ []) :
    (relationsOf text name).take 3 = specRelations text name ∧
    ((relationsOf text name).take 3).length =
      min 3 ((pySplit ['.'] text).filter (fun s => pyIn name s)).length := by
  by_cases ht : text = []
  · subst ht
    rcases h with h | h
    · exact absurd rfl h
    · have hn : pyIn name [] = false := by
        cases name with
        | nil => exact absurd rfl h
        | cons c cs => simp [pyIn]
      simp [relationsOf, specRelations, pySplit, pySplitF, breakOn, hn]
  · constructor
    · simp [relationsOf, specRelations, ht]
    · simp [relationsOf, ht, List.length_take, List.length_map]

/-- Witness for C4: a relations text with 4 sentences containing "Alice":
exactly 3 relations are produced, in order. -/
theorem relations_filter_cap_witness :
    ((("x").data ≠ ([] : Str) ∨ ("Alice").data ≠ ([] : Str)) ∧
      ((relationsOf
          (("Alice a. Alice b. Alice c. Alice d.").data) (("Alice").data)).take 3 =
        specRelations (("Alice a. Alice b. Alice c. Alice d.").data) (("Alice").data) ∧
      ((relationsOf
          (("Alice a. Alice b. Alice c. Alice d.").data) (("Alice").data)).take 3).length =
        min 3 ((pySplit ['.'] (("Alice a. Alice b. Alice c. Alice d.").data)).filter
          (fun s => pyIn (("Alice").data) s)).length)) ∧
    ((pySplit ['.'] (("Alice a. Alice b. Alice c. Alice d.").data)).filter
        (fun s => pyIn (("Alice").data) s)).length = 4 ∧
    ((relationsOf
        (("Alice a. Alice b. Alice c. Alice d.").data) (("Alice").data)).take 3).length = 3 :=
  ⟨⟨Or.inl (by decide),
      relations_filter_cap (("Alice a. Alice b. Alice c. Alice d.").data) (("Alice").data)
        (Or.inl (by decide))⟩,
    by decide, by decide⟩

/-- Claim C9: calling `find_relevant_chunks` on a processor whose index is
neither built nor loaded fails (the `AttributeError` from `None.search`); it
does not return an empty result list, and the method consults no persisted
state. -/
theorem findRelevantChunks_requires_index (st : ProcState) (q : Str) (k : ℕ)
    (h : st.index = none) :
    findRelevantChunks st q k = Except.error Err.attrNone ∧
    findRelevantChunks st q k ≠ Except.ok [] := by
  simp [findRelevantChunks, h]

/-- Witness for C9: a freshly constructed processor has no index and retrieval
on it errors. -/
theorem findRelevantChunks_requires_index_witness :
    (freshState lenEmbed).index = none ∧
    (findRelevantChunks (freshState lenEmbed) (("query").data) 5 =
        Except.error Err.attrNone ∧
      findRelevantChunks (freshState lenEmbed) (("query").data) 5 ≠ Except.ok []) :=
  ⟨rfl, findRelevantChunks_requires_index (freshState lenEmbed) (("query").data) 5 rfl⟩

/-- Claim C5: persistence round-trips exactly.  A fresh processor that loads
the artifacts written by `process_stories` reaches exactly the pre-save state,
so for every query and k its retrieval — and the underlying `(id, distance)`
search sequence — is identical to the in-memory index's immediately before the
save. -/
theorem persist_roundtrip (embed : Str → List ℤ) (fs0 : FileSystem)
    (stories : List Document) (stB : ProcState) (q : Str) (k : ℕ)
    (hload : loadIfNeeded (freshState embed)
        (processStories (freshState embed) fs0 stories).2 = Except.ok stB) :
    stB = (processStories (freshState embed) fs0 stories).1 ∧
    findRelevantChunks stB q k =
      findRelevantChunks (processStories (freshState embed) fs0 stories).1 q k ∧
    Option.map (fun idx => idx.search (stB.embed q) k) stB.index =
      Option.map (fun idx => idx.search (stB.embed q) k)
        (processStories (freshState embed) fs0 stories).1.index := by
  simp only [loadIfNeeded, processStories, freshState] at hload
  injection hload with h
  subst h
  exact ⟨rfl, rfl, rfl⟩

/-- Witness for C5 at a concrete corpus: build from one story, reload from the
written artifacts, retrieval agrees. -/
theorem persist_roundtrip_witness :
    c5StB = (processStories (freshState lenEmbed) c5Fs c5Stories).1 ∧
    findRelevantChunks c5StB (("query").data) 5 =
      findRelevantChunks (processStories (freshState lenEmbed) c5Fs c5Stories).1
        (("query").data) 5 ∧
    Option.map (fun idx => idx.search (c5StB.embed (("query").data)) 5) c5StB.index =
      Option.map (fun idx => idx.search (c5StB.embed (("query").data)) 5)
        (processStories (freshState lenEmbed) c5Fs c5Stories).1.index :=
  persist_roundtrip lenEmbed c5Fs c5Stories c5StB (("query").data) 5 rfl

/-! ### Search helper lemmas -/

theorem optMap_eq_none {α β : Type} (f : α → Option β) :
    ∀ l : List α, (∃ a ∈ l, f a = none) → optMap f l = none := by
  intro l
  induction l with
  | nil =>
    rintro ⟨a, ha, _⟩
    simp at ha
  | cons a as ih =>
    rintro ⟨b, hb, hfb⟩
    rcases List.mem_cons.mp hb with rfl | hb
    · simp [optMap, hfb]
    · unfold optMap
      rw [ih ⟨b, hb, hfb⟩]
      cases f a <;> rfl

theorem pyGet_eq_none_of_le {α : Type} (xs : List α) (i : ℤ)
    (h0 : 0 ≤ i) (h1 : (xs.length : ℤ) ≤ i) : pyGet xs i = none := by
  unfold pyGet
  rw [if_neg (by omega), if_neg (by omega)]

theorem option_eq_some_getD {α : Type} {o : Option α} (d : α) (h : o.isSome) :
    o = some (o.getD d) := by
  cases o with
  | none => simp at h
  | some x => rfl

theorem nthOpt_isSome_of_lt {α : Type} :
    ∀ (xs : List α) (n : Nat), n < xs.length → (nthOpt xs n).isSome := by
  intro xs
  induction xs with
  | nil => intro n h; simp at h
  | cons a as ih =>
    intro n h
    cases n with
    | zero => simp [nthOpt]
    | succ m => exact ih m (by simpa using Nat.lt_of_succ_lt_succ h)

theorem nthOpt_last {α : Type} :
    ∀ xs : List α, xs ≠ [] → nthOpt xs (xs.length - 1) = xs.getLast? := by
  intro xs
  induction xs with
  | nil => intro h; exact absurd rfl h
  | cons a as ih =>
    intro _
    cases as with
    | nil => rfl
    | cons b bs =>
      have h2 := ih (by simp)
      simpa [nthOpt, List.getLast?_cons_cons] using h2

theorem pyGet_isSome_of_lt {α : Type} (xs : List α) (i : ℤ)
    (h0 : 0 ≤ i) (h1 : i < (xs.length : ℤ)) : (pyGet xs i).isSome := by
  have hn : i.toNat < xs.length := by omega
  have hcond : 0 ≤ i ∧ i < (xs.length : ℤ) := ⟨h0, h1⟩
  unfold pyGet
  rw [if_pos hcond]
  exact nthOpt_isSome_of_lt xs i.toNat hn

theorem pyGet_neg_one {α : Type} (xs : List α) (h : xs ≠ []) :
    pyGet xs (-1) = xs.getLast? := by
  have hlen : 0 < xs.length := List.length_pos.mpr h
  have hc : ¬(0 ≤ (-1 : ℤ) ∧ (-1 : ℤ) < (xs.length : ℤ)) := by omega
  have hc2 : -(xs.length : ℤ) ≤ (-1 : ℤ) ∧ (-1 : ℤ) < 0 := by omega
  have harg : ((-1 : ℤ) + (xs.length : ℤ)).toNat = xs.length - 1 := by omega
  simp only [pyGet, if_neg hc, if_pos hc2, harg]
  exact nthOpt_last xs h

theorem hitsFrom_bounds (q : List ℤ) :
    ∀ (vs : List (List ℤ)) (i : ℤ) (p : ℤ × ℤ),
      p ∈ hitsFrom q i vs → i ≤ p.1 ∧ p.1 < i + vs.length := by
  intro vs
  induction vs with
  | nil => intro i p h; simp [hitsFrom] at h
  | cons v rest ih =>
    intro i p h
    simp only [hitsFrom, List.mem_cons] at h
    rcases h with rfl | h
    · simp only [List.length_cons]
      push_cast
      constructor
      · simp
      · simp
    · have h2 := ih (i + 1) p h
      simp only [List.length_cons]
      push_cast
      constructor
      · omega
      · omega

theorem hitsFrom_length (q : List ℤ) :
    ∀ (vs : List (List ℤ)) (i : ℤ), (hitsFrom q i vs).length = vs.length := by
  intro vs
  induction vs with
  | nil => intro i; rfl
  | cons v rest ih => intro i; simp [hitsFrom, ih]

theorem hitsOf_bounds (idx : VectorIndex) (q : List ℤ) (p : ℤ × ℤ)
    (h : p ∈ hitsOf idx q) : 0 ≤ p.1 ∧ p.1 < (idx.vecs.length : ℤ) := by
  have := hitsFrom_bounds q idx.vecs 0 p h
  omega

theorem sortHits_perm (l : List (ℤ × ℤ)) : (sortHits l).Perm l :=
  List.perm_insertionSort hitLE l

theorem sortHits_sorted (l : List (ℤ × ℤ)) : List.Pairwise hitLE (sortHits l) :=
  List.sorted_insertionSort hitLE l

theorem sortHits_length (l : List (ℤ × ℤ)) : (sortHits l).length = l.length :=
  (sortHits_perm l).length_eq

theorem search_length (idx : VectorIndex) (q : List ℤ) (k : ℕ) :
    (idx.search q k).length = k := by
  have h1 : ((sortHits (hitsOf idx q)).take k).length =
      min k (idx.vecs.length) := by
    simp [List.length_take, sortHits_length, hitsOf, hitsFrom_length]
  simp only [VectorIndex.search, List.length_append, List.length_replicate, h1]
  omega

theorem mem_search (idx : VectorIndex) (q : List ℤ) (k : ℕ) (p : ℤ × ℤ)
    (h : p ∈ idx.search q k) :
    (0 ≤ p.1 ∧ p.1 < (idx.vecs.length : ℤ)) ∨ p = ((-1 : ℤ), FLT_MAX) := by
  simp only [VectorIndex.search, List.mem_append] at h
  rcases h with h | h
  · have hmem : p ∈ sortHits (hitsOf idx q) := (List.take_sublist k _).subset h
    exact Or.inl (hitsOf_bounds idx q p ((sortHits_perm _).mem_iff.mp hmem))
  · exact Or.inr (List.eq_of_mem_replicate h)

theorem optMap_eq_some {α β : Type} (f : α → Option β) (g : α → β) :
    ∀ l : List α, (∀ a ∈ l, f a = some (g a)) → optMap f l = some (l.map g) := by
  intro l
  induction l with
  | nil => intro _; rfl
  | cons a as ih =>
    intro h
    have ha := h a (by simp)
    have has := ih (fun x hx => h x (by simp [hx]))
    simp [optMap, ha, has]

/-- Every position of the vector list appears as an id among the candidate
hits. -/
theorem hitsFrom_mem_id (q : List ℤ) :
    ∀ (vs : List (List ℤ)) (i : ℤ) (j : ℕ), j < vs.length →
      ∃ p ∈ hitsFrom q i vs, p.1 = i + (j : ℤ) := by
  intro vs
  induction vs with
  | nil =>
    intro i j h
    simp at h
  | cons v rest ih =>
    intro i j h
    cases j with
    | zero => exact ⟨(i, sqDist q v), by simp [hitsFrom], by simp⟩
    | succ m =>
      obtain ⟨p, hp, hp1⟩ := ih (i + 1) m (by simpa using Nat.lt_of_succ_lt_succ h)
      refine ⟨p, by simp [hitsFrom, hp], ?_⟩
      rw [hp1]
      push_cast
      ring

/-- When the index holds more vectors than the store has texts and `k` covers
the whole index, some returned id is out of range for `self.texts`, so
retrieval raises the `IndexError` (`badChunkId`). -/
theorem findRelevantChunks_overflow (st : ProcState) (idx : VectorIndex)
    (q : Str) (k : ℕ) (hidx : st.index = some idx)
    (hlt : st.texts.length < idx.vecs.length) (hk : idx.vecs.length ≤ k) :
    findRelevantChunks st q k = Except.error Err.badChunkId := by
  obtain ⟨p, hp, hp1⟩ := hitsFrom_mem_id (st.embed q) idx.vecs 0
    (idx.vecs.length - 1) (by omega)
  have hps : p ∈ sortHits (hitsOf idx (st.embed q)) :=
    (sortHits_perm _).mem_iff.mpr hp
  have hlen : (sortHits (hitsOf idx (st.embed q))).length ≤ k := by
    rw [sortHits_length]
    unfold hitsOf
    rw [hitsFrom_length]
    exact hk
  have htake : (sortHits (hitsOf idx (st.embed q))).take k =
      sortHits (hitsOf idx (st.embed q)) := List.take_of_length_le hlen
  have hmem : p ∈ idx.search (st.embed q) k := by
    simp only [VectorIndex.search]
    exact List.mem_append.mpr (Or.inl (by rw [htake]; exact hps))
  have hid : p.1 ∈ (idx.search (st.embed q) k).map Prod.fst :=
    List.mem_map.mpr ⟨p, hmem, rfl⟩
  have hfail : pyGet st.texts p.1 = none := by
    apply pyGet_eq_none_of_le
    · rw [hp1]
      omega
    · rw [hp1]
      omega
  have hnone := optMap_eq_none (pyGet st.texts) _ ⟨p.1, hid, hfail⟩
  simp [findRelevantChunks, hidx, hnone]

/-- On a resident index whose size does not exceed the (nonempty) store,
retrieval succeeds and returns the searched ids mapped through Python
indexing. -/
theorem findRelevantChunks_eq_ok (st : ProcState) (idx : VectorIndex)
    (q : Str) (k : ℕ) (hidx : st.index = some idx)
    (hlen : idx.vecs.length ≤ st.texts.length) (hne : st.texts ≠ []) :
    findRelevantChunks st q k =
      Except.ok (((idx.search (st.embed q) k).map Prod.fst).map
        (fun i => (pyGet st.texts i).getD [])) := by
  have hok : ∀ i ∈ (idx.search (st.embed q) k).map Prod.fst,
      pyGet st.texts i = some ((pyGet st.texts i).getD []) := by
    intro i hi
    rcases List.mem_map.mp hi with ⟨p, hp, rfl⟩
    rcases mem_search idx (st.embed q) k p hp with ⟨h0, h1⟩ | rfl
    · refine option_eq_some_getD [] (pyGet_isSome_of_lt st.texts p.1 h0 ?_)
      calc p.1 < (idx.vecs.length : ℤ) := h1
        _ ≤ (st.texts.length : ℤ) := by exact_mod_cast hlen
    · have hgl : pyGet st.texts ((-1 : ℤ), FLT_MAX).1 = st.texts.getLast? :=
        pyGet_neg_one st.texts hne
      rw [hgl]
      exact option_eq_some_getD [] (by simpa [List.getLast?_isSome] using hne)
  have hmapM := optMap_eq_some (pyGet st.texts)
    (fun i => (pyGet st.texts i).getD []) _ hok
  simp [findRelevantChunks, hidx, hmapM]

/-- Claim C1 (amended): on an index holding `N ≥ 1` vectors with an aligned
store, `find_relevant_chunks(query, k)` succeeds and returns exactly `k` chunk
texts — not `min(k, N)`.  The underlying faiss search result is the sorted
(ascending distance, ties by ascending id) permutation of all `(id, distance)`
candidates truncated to `min(k, N)` entries, padded with `k - min(k, N)`
entries `(-1, FLT_MAX)`; Python's negative indexing maps each padding id `-1`
to the last stored text, so the tail of the returned list is `k - min(k, N)`
copies of the last chunk. -/
theorem retrieve_returns_k (st : ProcState) (idx : VectorIndex) (q : Str) (k : ℕ)
    (hidx : st.index = some idx)
    (hlen : idx.vecs.length ≤ st.texts.length)
    (hne : st.texts ≠ []) :
    ∃ ts, findRelevantChunks st q k = Except.ok ts ∧
      ts.length = k ∧
      ts = ((idx.search (st.embed q) k).map Prod.fst).map
        (fun i => (pyGet st.texts i).getD []) ∧
      idx.search (st.embed q) k =
        (sortHits (hitsOf idx (st.embed q))).take k ++
          List.replicate (k - min k idx.vecs.length) ((-1 : ℤ), FLT_MAX) ∧
      List.Pairwise hitLE (sortHits (hitsOf idx (st.embed q))) ∧
      (sortHits (hitsOf idx (st.embed q))).Perm (hitsOf idx (st.embed q)) ∧
      ts.drop (min k idx.vecs.length) =
        List.replicate (k - min k idx.vecs.length) (st.texts.getLast?.getD []) := by
  have htop : ((sortHits (hitsOf idx (st.embed q))).take k).length =
      min k idx.vecs.length := by
    simp [List.length_take, sortHits_length, hitsOf, hitsFrom_length]
  have hsearch : idx.search (st.embed q) k =
      (sortHits (hitsOf idx (st.embed q))).take k ++
        List.replicate (k - min k idx.vecs.length) ((-1 : ℤ), FLT_MAX) := by
    simp only [VectorIndex.search, htop]
  refine ⟨_, findRelevantChunks_eq_ok st idx q k hidx hlen hne, ?_, rfl, hsearch,
    sortHits_sorted _, sortHits_perm _, ?_⟩
  · simp [List.length_map, search_length]
  · rw [← List.map_drop, ← List.map_drop, hsearch, ← htop, List.drop_left]
    rw [List.map_replicate, List.map_replicate]
    rw [pyGet_neg_one st.texts hne]

/-- Counterexample to claim C1 as stated: the 3-chunk `c1State` with `k = 5`
returns five texts (the three chunks nearest-first, then two copies of the
last chunk), not `min(5, 3) = 3` and not an error. -/
theorem retrieve_returns_k_cex :
    findRelevantChunks c1State (("q").data) 5 =
      Except.ok
        [("aa").data, ("bb").data, ("cc").data, ("cc").data, ("cc").data] ∧
    min 5 3 = 3 ∧ (5 : ℕ) ≠ 3 := by
  refine ⟨by decide, by decide, by decide⟩

/-- Witness for C1 (amended) at the concrete 3-vector index with `k = 5`. -/
theorem retrieve_returns_k_witness :
    ∃ ts, findRelevantChunks c1State (("q").data) 5 = Except.ok ts ∧
      ts.length = 5 ∧
      ts = ((c1Index.search (c1State.embed (("q").data)) 5).map Prod.fst).map
        (fun i => (pyGet c1State.texts i).getD []) ∧
      c1Index.search (c1State.embed (("q").data)) 5 =
        (sortHits (hitsOf c1Index (c1State.embed (("q").data)))).take 5 ++
          List.replicate (5 - min 5 c1Index.vecs.length) ((-1 : ℤ), FLT_MAX) ∧
      List.Pairwise hitLE (sortHits (hitsOf c1Index (c1State.embed (("q").data)))) ∧
      (sortHits (hitsOf c1Index (c1State.embed (("q").data)))).Perm
        (hitsOf c1Index (c1State.embed (("q").data))) ∧
      ts.drop (min 5 c1Index.vecs.length) =
        List.replicate (5 - min 5 c1Index.vecs.length)
          (c1State.texts.getLast?.getD []) :=
  retrieve_returns_k c1State c1Index (("q").data) 5 rfl (by decide) (by decide)

/-! ### Source-scan and lookup helper lemmas -/

theorem pyIn_nil_needle : ∀ h : Str, pyIn [] h = true := by
  intro h
  induction h with
  | nil => rfl
  | cons c rest ih => simp [pyIn, isPref]

theorem scanSources_eq (fs : FileSystem) (name : Str) :
    ∀ metas : List Str, (∀ m ∈ metas, (fs.sources m).isSome) →
      scanSources metas fs name =
        Except.ok (matchingSources metas fs.sources name) := by
  intro metas
  induction metas with
  | nil => intro _; rfl
  | cons m rest ih =>
    intro h
    obtain ⟨content, hc⟩ := Option.isSome_iff_exists.mp (h m (by simp))
    have hr := ih (fun x hx => h x (by simp [hx]))
    by_cases hp : pyIn (pyLower name) (pyLower content) = true
    · simp [scanSources, hc, hr, hp, matchingSources, dedupFirst]
    · simp only [Bool.not_eq_true] at hp
      simp [scanSources, hc, hr, hp, matchingSources, dedupFirst]

theorem matchingSources_eq_nil (metas : List Str) (read : Str → Option Str)
    (name : Str)
    (h : ∀ m ∈ metas, ∀ content, read m = some content →
      pyIn (pyLower name) (pyLower content) = false) :
    matchingSources metas read name = [] := by
  have hf : metas.filter (fun m =>
      match read m with
      | some content => pyIn (pyLower name) (pyLower content)
      | none => false) = [] := by
    rw [List.filter_eq_nil_iff]
    intro m hm
    cases hrm : read m with
    | none => simp
    | some content => simp [h m hm content hrm]
  unfold matchingSources
  rw [hf]
  rfl

theorem matchingSources_all_match (metas : List Str) (read : Str → Option Str)
    (name : Str)
    (h : ∀ m ∈ metas, ∃ content, read m = some content ∧
      pyIn (pyLower name) (pyLower content) = true) :
    matchingSources metas read name = dedupFirst metas := by
  have hf : metas.filter (fun m =>
      match read m with
      | some content => pyIn (pyLower name) (pyLower content)
      | none => false) = metas := by
    rw [List.filter_eq_self]
    intro m hm
    obtain ⟨content, hrm, hp⟩ := h m hm
    simp [hrm, hp]
  unfold matchingSources
  rw [hf]

theorem dedupFirst_ne_nil : ∀ l : List Str, l ≠ [] → dedupFirst l ≠ [] := by
  intro l h
  cases l with
  | nil => exact absurd rfl h
  | cons s rest => simp [dedupFirst]

theorem dedupFirst_subset : ∀ (l : List Str) (x : Str), x ∈ dedupFirst l → x ∈ l := by
  intro l
  induction l with
  | nil => intro x hx; simp [dedupFirst] at hx
  | cons s rest ih =>
    intro x hx
    simp only [dedupFirst, List.mem_cons] at hx
    rcases hx with rfl | hx
    · simp
    · exact List.mem_cons_of_mem s (ih x (List.mem_of_mem_filter hx))

theorem headD_mem {α : Type} (l : List α) (d : α) (h : l ≠ []) : l.headD d ∈ l := by
  cases l with
  | nil => exact absurd rfl h
  | cons a rest => simp

theorem matchingSources_mem (metas : List Str) (read : Str → Option Str)
    (name : Str) (x : Str) (h : x ∈ matchingSources metas read name) :
    x ∈ metas ∧ ∃ c, read x = some c ∧ pyIn (pyLower name) (pyLower c) = true := by
  have hx := dedupFirst_subset _ x h
  have hmem := List.mem_filter.mp hx
  refine ⟨hmem.1, ?_⟩
  have hp := hmem.2
  cases hrx : read x with
  | none => rw [hrx] at hp; simp at hp
  | some c =>
    rw [hrx] at hp
    exact ⟨c, rfl, by simpa using hp⟩

/-- `loadIfNeeded` lands in a state with a resident index and is idempotent. -/
theorem loadIfNeeded_idem (st st' : ProcState) (fs : FileSystem)
    (h : loadIfNeeded st fs = Except.ok st') :
    loadIfNeeded st' fs = Except.ok st' := by
  unfold loadIfNeeded at *
  cases hidx : st.index with
  | some i =>
    rw [hidx] at h
    injection h with h
    subst h
    rw [hidx]
  | none =>
    rw [hidx] at h
    cases hif : fs.indexFile with
    | none => rw [hif] at h; exact absurd h (by simp)
    | some idx =>
      cases hsf : fs.storeFile with
      | none => rw [hif, hsf] at h; exact absurd h (by simp)
      | some store =>
        rw [hif, hsf] at h
        injection h with h
        subst h
        rfl

/-- The first step of `get_character_info` only replaces the state by the
loaded one; everything after is a function of that state. -/
theorem getCharacterInfo_load_eq (st st' : ProcState) (fs : FileSystem)
    (name : Str) (h : loadIfNeeded st fs = Except.ok st') :
    getCharacterInfo st fs name = getCharacterInfo st' fs name := by
  have h' := loadIfNeeded_idem st st' fs h
  unfold getCharacterInfo
  rw [h, h']

/-- On a benign resident state (index no larger than the nonempty store, all
referenced sources readable): lookup returns `none` exactly when no source
matches. -/
theorem getCharacterInfo_resident_absent (st : ProcState) (fs : FileSystem)
    (name : Str) (idx : VectorIndex)
    (hidx : st.index = some idx)
    (hlen : idx.vecs.length ≤ st.texts.length)
    (hne : st.texts ≠ [])
    (hread : ∀ m ∈ st.metadatas, (fs.sources m).isSome)
    (hm : matchingSources st.metadatas fs.sources name = []) :
    getCharacterInfo st fs name = Except.ok none := by
  have hld : loadIfNeeded st fs = Except.ok st := by
    unfold loadIfNeeded
    rw [hidx]
  have h1 := findRelevantChunks_eq_ok st idx (queryTitle name) 5 hidx hlen hne
  have h2 := findRelevantChunks_eq_ok st idx (querySummary name) 5 hidx hlen hne
  have h3 := findRelevantChunks_eq_ok st idx (queryRelations name) 5 hidx hlen hne
  have h4 := findRelevantChunks_eq_ok st idx (queryType name) 5 hidx hlen hne
  have hscan := scanSources_eq fs name st.metadatas hread
  unfold getCharacterInfo
  simp only [hld, h1, h2, h3, h4, hscan, hm]
  rfl

/-- On a benign resident state with at least one matching source: lookup
returns the fully assembled record. -/
theorem getCharacterInfo_resident_found (st : ProcState) (fs : FileSystem)
    (name : Str) (idx : VectorIndex)
    (hidx : st.index = some idx)
    (hlen : idx.vecs.length ≤ st.texts.length)
    (hne : st.texts ≠ [])
    (hread : ∀ m ∈ st.metadatas, (fs.sources m).isSome)
    (hm : matchingSources st.metadatas fs.sources name ≠ []) :
    getCharacterInfo st fs name = Except.ok (some
      { name := name
        storyTitle :=
          pyReplace ((matchingSources st.metadatas fs.sources name).headD [])
            (".txt").data []
        summary := (pyJoin [' '] (retrievedTexts st idx (querySummary name))).take 500
        relations :=
          (relationsOf (pyJoin [' '] (retrievedTexts st idx (queryRelations name)))
            name).take 3
        characterType :=
          characterTypeOf (pyJoin [' '] (retrievedTexts st idx (queryType name))) }) := by
  have hld : loadIfNeeded st fs = Except.ok st := by
    unfold loadIfNeeded
    rw [hidx]
  have h1 := findRelevantChunks_eq_ok st idx (queryTitle name) 5 hidx hlen hne
  have h2 := findRelevantChunks_eq_ok st idx (querySummary name) 5 hidx hlen hne
  have h3 := findRelevantChunks_eq_ok st idx (queryRelations name) 5 hidx hlen hne
  have h4 := findRelevantChunks_eq_ok st idx (queryType name) 5 hidx hlen hne
  have hscan := scanSources_eq fs name st.metadatas hread
  unfold getCharacterInfo retrievedTexts
  simp only [hld, h1, h2, h3, h4, hscan]
  simp [hm]

/-- If the first aspect retrieval raises, the whole lookup raises that
error (the presence scan is never reached). -/
theorem getCharacterInfo_retrieval_error (st : ProcState) (fs : FileSystem)
    (name : Str) (e : Err)
    (hld : loadIfNeeded st fs = Except.ok st)
    (h1 : findRelevantChunks st (queryTitle name) 5 = Except.error e) :
    getCharacterInfo st fs name = Except.error e := by
  unfold getCharacterInfo
  simp only [hld, h1]

/-- Claim C7: for a name with no case-insensitive occurrence in any readable
source referenced by the store, lookup returns `Except.ok none` — Python's
`None`, a value distinguishable by construction from every raised error
(`Except.error (noIndex | attrNone | badChunkId | sourceRead _)`) and not a
record. -/
theorem lookup_absent_not_error (st : ProcState) (fs : FileSystem) (name : Str)
    (idx : VectorIndex)
    (hidx : st.index = some idx)
    (hlen : idx.vecs.length ≤ st.texts.length)
    (hne : st.texts ≠ [])
    (hno : ∀ m ∈ st.metadatas, (fs.sources m).isSome ∧
      pyIn (pyLower name) (pyLower ((fs.sources m).getD [])) = false) :
    getCharacterInfo st fs name = Except.ok none := by
  have hread : ∀ m ∈ st.metadatas, (fs.sources m).isSome := fun m hm => (hno m hm).1
  have hm : matchingSources st.metadatas fs.sources name = [] := by
    apply matchingSources_eq_nil
    intro m hm content hc
    have h2 := (hno m hm).2
    rw [hc] at h2
    simpa using h2
  exact getCharacterInfo_resident_absent st fs name idx hidx hlen hne hread hm

/-- Witness for C7: "Zara" appears in no source, so lookup returns the absent
value `ok none`, not an error. -/
theorem lookup_absent_not_error_witness :
    getCharacterInfo c7State c7Fs (("Zara").data) = Except.ok none :=
  lookup_absent_not_error c7State c7Fs (("Zara").data) { dim := 1, vecs := [[10]] }
    rfl (by decide) (by decide) (by decide)

/-- Claim C2 (amended): the orchestration performs no store/index alignment
check on load — it only checks that both artifact files exist — and no
distinct "misaligned store" error exists anywhere in the method.  A pair whose
store holds at least as many (and some) texts as the index has vectors loads
and proceeds silently: the lookup returns an ordinary `ok` result.  In the
opposite direction — more vectors than texts, with the index small enough
(`ntotal ≤ k = 5`) that every id is returned — the lookup fails only later
and incidentally, with the ordinary chunk-lookup `IndexError` raised inside
retrieval, still nothing resembling a misaligned-store error. -/
theorem misaligned_store_loads_silently (embed : Str → List ℤ) (fs : FileSystem)
    (idx : VectorIndex) (texts metas : List Str) (name : Str)
    (hif : fs.indexFile = some idx) (hsf : fs.storeFile = some (texts, metas))
    (_hmis : idx.vecs.length ≠ texts.length) :
    (idx.vecs.length ≤ texts.length → texts ≠ [] →
      (∀ m ∈ metas, (fs.sources m).isSome) →
      ∃ r, getCharacterInfo (freshState embed) fs name = Except.ok r) ∧
    (texts.length < idx.vecs.length → idx.vecs.length ≤ 5 →
      getCharacterInfo (freshState embed) fs name =
        Except.error Err.badChunkId) := by
  have hld : loadIfNeeded (freshState embed) fs = Except.ok
      { embed := embed, index := some idx, texts := texts, metadatas := metas } := by
    simp only [loadIfNeeded, freshState]
    rw [hif, hsf]
  have heq := getCharacterInfo_load_eq _ _ fs name hld
  constructor
  · intro hlen hne hread
    rw [heq]
    by_cases hm : matchingSources metas fs.sources name = []
    · exact ⟨none,
        getCharacterInfo_resident_absent _ fs name idx rfl hlen hne hread hm⟩
    · exact ⟨_,
        getCharacterInfo_resident_found _ fs name idx rfl hlen hne hread hm⟩
  · intro hlt hk
    rw [heq]
    exact getCharacterInfo_retrieval_error _ fs name Err.badChunkId rfl
      (findRelevantChunks_overflow _ idx (queryTitle name) 5 rfl hlt hk)

/-- Counterexample to claim C2 as stated: `c2Fs` persists 1 vector against 2
stored texts; the lookup neither verifies the lengths nor raises any distinct
error — it silently returns a normal record. -/
theorem misaligned_store_loads_silently_cex :
    c2Fs.indexFile = some c2Idx ∧
    c2Fs.storeFile = some (c2Texts, c2Metas) ∧
    c2Idx.vecs.length ≠ c2Texts.length ∧
    getCharacterInfo (freshState lenEmbed) c2Fs (("al").data) =
      Except.ok (some
        { name := ("al").data
          storyTitle := ("s").data
          summary := ("x y y y y").data
          relations := []
          characterType := ("Supporting Character").data }) :=
  ⟨rfl, rfl, by decide, by decide⟩

/-- Witness for C2 (amended), at both concrete misaligned disks: the
store-longer pair `c2Fs` yields a silent `ok`, the index-longer pair `c2FsB`
yields the retrieval `IndexError`. -/
theorem misaligned_store_loads_silently_witness :
    (∃ r, getCharacterInfo (freshState lenEmbed) c2Fs (("al").data) =
      Except.ok r) ∧
    getCharacterInfo (freshState lenEmbed) c2FsB (("al").data) =
      Except.error Err.badChunkId :=
  ⟨(misaligned_store_loads_silently lenEmbed c2Fs c2Idx c2Texts c2Metas
      (("al").data) rfl rfl (by decide)).1 (by decide) (by decide) (by decide),
    (misaligned_store_loads_silently lenEmbed c2FsB c2IdxB c2TextsB c2Metas
      (("al").data) rfl rfl (by decide)).2 (by decide) (by decide)⟩

/-- Claim C8 (amended): `storyTitle` is the identifier of one source document
that matched the presence check, with every literal occurrence of `".txt"`
removed (`.replace('.txt', '')`) — not with its file extension stripped in
general.  For `hero.txt` this yields `"hero"`; any other extension is left in
place. -/
theorem storyTitle_replaces_txt (st : ProcState) (fs : FileSystem) (name : Str)
    (idx : VectorIndex)
    (hidx : st.index = some idx)
    (hlen : idx.vecs.length ≤ st.texts.length)
    (hne : st.texts ≠ [])
    (hread : ∀ m ∈ st.metadatas, (fs.sources m).isSome)
    (hmatch : matchingSources st.metadatas fs.sources name ≠ []) :
    ∃ rec, getCharacterInfo st fs name = Except.ok (some rec) ∧
      rec.storyTitle =
        pyReplace ((matchingSources st.metadatas fs.sources name).headD [])
          (".txt").data [] ∧
      (matchingSources st.metadatas fs.sources name).headD [] ∈ st.metadatas ∧
      ∃ c, fs.sources ((matchingSources st.metadatas fs.sources name).headD []) =
          some c ∧ pyIn (pyLower name) (pyLower c) = true := by
  obtain ⟨hmem, hc⟩ :=
    matchingSources_mem st.metadatas fs.sources name _ (headD_mem _ [] hmatch)
  exact ⟨_, getCharacterInfo_resident_found st fs name idx hidx hlen hne hread hmatch,
    rfl, hmem, hc⟩

/-- Witness for C8 at the spec's scenario source `hero.txt` with name
"Alice": the title is `"hero"`. -/
theorem storyTitle_replaces_txt_witness :
    (∃ rec, getCharacterInfo c8State c8Fs (("Alice").data) = Except.ok (some rec) ∧
      rec.storyTitle =
        pyReplace ((matchingSources c8State.metadatas c8Fs.sources
          (("Alice").data)).headD []) (".txt").data [] ∧
      (matchingSources c8State.metadatas c8Fs.sources
        (("Alice").data)).headD [] ∈ c8State.metadatas ∧
      ∃ c, c8Fs.sources ((matchingSources c8State.metadatas c8Fs.sources
          (("Alice").data)).headD []) = some c ∧
        pyIn (pyLower (("Alice").data)) (pyLower c) = true) ∧
    matchingSources c8State.metadatas c8Fs.sources (("Alice").data) =
      [("hero.txt").data] ∧
    pyReplace (("hero.txt").data) (".txt").data [] = ("hero").data :=
  ⟨storyTitle_replaces_txt c8State c8Fs (("Alice").data) { dim := 1, vecs := [[10]] }
      rfl (by decide) (by decide) (by decide) (by decide),
    by decide, by decide⟩

/-- Counterexample to claim C8 as stated: for the matching source `hero.md`,
the extension is not stripped — `storyTitle` is `"hero.md"`, not `"hero"`. -/
theorem storyTitle_replaces_txt_cex :
    getCharacterInfo c8mState c8mFs (("Alice").data) =
      Except.ok (some
        { name := ("Alice").data
          storyTitle := ("hero.md").data
          summary := ("x x x x x").data
          relations := []
          characterType := ("Supporting Character").data }) ∧
    ("hero.md").data ≠ ("hero").data :=
  ⟨by decide, by decide⟩

/-- Claim C10 (amended): the empty-string name matches every source the scan
can read, so when every source referenced by the (nonempty) store is readable,
lookup of "" never returns absent: it always assembles a record. -/
theorem empty_name_always_found (st : ProcState) (fs : FileSystem)
    (idx : VectorIndex)
    (hidx : st.index = some idx)
    (hlen : idx.vecs.length ≤ st.texts.length)
    (hne : st.texts ≠ [])
    (hread : ∀ m ∈ st.metadatas, (fs.sources m).isSome)
    (hmetas : st.metadatas ≠ []) :
    ∃ rec, getCharacterInfo st fs [] = Except.ok (some rec) := by
  have hall : ∀ m ∈ st.metadatas, ∃ c, fs.sources m = some c ∧
      pyIn (pyLower []) (pyLower c) = true := by
    intro m hm
    obtain ⟨c, hc⟩ := Option.isSome_iff_exists.mp (hread m hm)
    exact ⟨c, hc, pyIn_nil_needle _⟩
  have hm : matchingSources st.metadatas fs.sources [] ≠ [] := by
    rw [matchingSources_all_match _ _ _ hall]
    exact dedupFirst_ne_nil _ hmetas
  exact ⟨_, getCharacterInfo_resident_found st fs [] idx hidx hlen hne hread hm⟩

/-- Witness for C10 (amended) at a concrete one-source store. -/
theorem empty_name_always_found_witness :
    ∃ rec, getCharacterInfo c7State c7Fs [] = Except.ok (some rec) :=
  empty_name_always_found c7State c7Fs { dim := 1, vecs := [[10]] }
    rfl (by decide) (by decide) (by decide) (by decide)

/-- Counterexample to claim C10 as stated: the store references one readable
source (`a.txt`, which the empty name matches) and one unreadable source
(`b.txt`); lookup of "" does not assemble a record — it fails with the
source-read error. -/
theorem empty_name_unreadable_source_cex :
    c10Fs.sources (("a.txt").data) = some (("x").data) ∧
    (("a.txt").data) ∈ c10State.metadatas ∧
    getCharacterInfo c10State c10Fs [] =
      Except.error (Err.sourceRead (("b.txt").data)) :=
  ⟨by decide, by decide, by decide⟩

/-! ### Chunker helper lemmas -/

theorem isPref_eq_append : ∀ p l : Str, isPref p l = true → l = p ++ l.drop p.length := by
  intro p
  induction p with
  | nil => intro l _; simp
  | cons a as ih =>
    intro l h
    cases l with
    | nil => simp [isPref] at h
    | cons b bs =>
      simp only [isPref, Bool.and_eq_true, decide_eq_true_eq] at h
      obtain ⟨rfl, h2⟩ := h
      simp only [List.cons_append, List.length_cons, List.drop_succ_cons]
      exact congrArg (a :: ·) (ih bs h2)

theorem breakOn_eq_append (sep : Str) :
    ∀ (text : Str) (pr : Str × Str), breakOn sep text = some pr →
      text = pr.1 ++ sep ++ pr.2 := by
  intro text
  induction text with
  | nil =>
    intro pr h
    unfold breakOn at h
    by_cases hs : sep = []
    · rw [if_pos hs] at h
      injection h with h
      subst h
      simp [hs]
    · rw [if_neg hs] at h
      exact absurd h (by simp)
  | cons ch rest ih =>
    intro pr h
    unfold breakOn at h
    by_cases hp : isPref sep (ch :: rest) = true
    · rw [if_pos hp] at h
      injection h with h
      subst h
      simpa using isPref_eq_append sep (ch :: rest) hp
    · rw [if_neg hp] at h
      cases hb : breakOn sep rest with
      | none => rw [hb] at h; exact absurd h (by simp)
      | some pr' =>
        obtain ⟨pre, post⟩ := pr'
        rw [hb] at h
        injection h with h
        subst h
        have := ih (pre, post) hb
        simp only [List.cons_append]
        exact congrArg (ch :: ·) (by simpa using this)

theorem pySplitF_ne_nil (sep : Str) (fuel : Nat) (text : Str) :
    pySplitF sep fuel text ≠ [] := by
  cases fuel with
  | zero => simp [pySplitF]
  | succ f =>
    unfold pySplitF
    cases breakOn sep text with
    | none => simp
    | some pr => simp

theorem pyJoin_cons_of_ne_nil (sep d : Str) (rest : List Str) (h : rest ≠ []) :
    pyJoin sep (d :: rest) = d ++ sep ++ pyJoin sep rest := by
  cases rest with
  | nil => exact absurd rfl h
  | cons e es => rfl

theorem pySplitF_join (sep : Str) (hs : sep ≠ []) :
    ∀ (fuel : Nat) (text : Str), text.length < fuel →
      pyJoin sep (pySplitF sep fuel text) = text := by
  intro fuel
  induction fuel with
  | zero => intro text h; omega
  | succ f ih =>
    intro text h
    unfold pySplitF
    cases hb : breakOn sep text with
    | none => rfl
    | some pr =>
      obtain ⟨pre, post⟩ := pr
      have htext := breakOn_eq_append sep text (pre, post) hb
      have hsl : 1 ≤ sep.length := by
        cases sep with
        | nil => exact absurd rfl hs
        | cons _ _ => simp
      have hlsum : text.length = pre.length + sep.length + post.length := by
        rw [htext]
        simp [List.length_append]
        omega
      have hlen : post.length < f := by omega
      rw [pyJoin_cons_of_ne_nil sep pre _ (pySplitF_ne_nil sep f post),
        ih post hlen]
      exact (by simpa using htext.symm)

theorem pySplit_of_ne_nil (sep text : Str) (hs : sep ≠ []) :
    pySplit sep text = pySplitF sep (text.length + 1) text := by
  unfold pySplit
  rw [if_neg hs]

theorem pySplit_join (sep text : Str) (hs : sep ≠ []) :
    pyJoin sep (pySplit sep text) = text := by
  rw [pySplit_of_ne_nil sep text hs]
  exact pySplitF_join sep hs (text.length + 1) text (by omega)

theorem flatten_filter_ne_nil :
    ∀ l : List Str, (l.filter (fun s => ¬s = [])).flatten = l.flatten := by
  intro l
  induction l with
  | nil => rfl
  | cons s rest ih =>
    simp only [List.filter_cons, decide_not] at ih ⊢
    by_cases hs : s = []
    · subst hs
      simp [ih]
    · simp [hs, ih]

theorem flatten_map_singleton : ∀ l : Str, (l.map (fun c => [c])).flatten = l := by
  intro l
  induction l with
  | nil => rfl
  | cons c rest ih => simp [ih]

theorem pyJoin_flatten_consmap (sep : Str) : ∀ (ts : List Str) (t0 : Str),
    pyJoin sep (t0 :: ts) = t0 ++ (ts.map (fun t => sep ++ t)).flatten := by
  intro ts
  induction ts with
  | nil => intro t0; simp [pyJoin]
  | cons t1 ts' ih =>
    intro t0
    rw [pyJoin_cons_of_ne_nil sep t0 _ (by simp), ih t1]
    simp [List.append_assoc]

theorem splitWithSep_flatten (sep text : Str) :
    (splitWithSep sep text).flatten = text := by
  unfold splitWithSep
  by_cases hs : sep = []
  · rw [if_pos hs]
    have hall : (text.map (fun c => [c])).filter (fun s => ¬s = []) =
        text.map (fun c => [c]) := by
      rw [List.filter_eq_self]
      intro a ha
      rcases List.mem_map.mp ha with ⟨c, _, rfl⟩
      simp
    rw [hall, flatten_map_singleton]
  · rw [if_neg hs]
    cases hps : pySplit sep text with
    | nil =>
      rw [pySplit_of_ne_nil sep text hs] at hps
      exact absurd hps (pySplitF_ne_nil sep _ text)
    | cons t0 ts =>
      rw [flatten_filter_ne_nil]
      have h1 : (t0 :: ts.map (fun t => sep ++ t)).flatten =
          pyJoin sep (t0 :: ts) := by
        rw [pyJoin_flatten_consmap]
        rfl
      rw [h1, ← hps, pySplit_join sep text hs]

theorem length_le_flatten : ∀ (l : List Str) (p : Str), p ∈ l →
    p.length ≤ l.flatten.length := by
  intro l
  induction l with
  | nil => intro p hp; simp at hp
  | cons s rest ih =>
    intro p hp
    rcases List.mem_cons.mp hp with rfl | hp
    · simp [List.length_append]
    · have := ih p hp
      simp only [List.flatten_cons, List.length_append]
      omega

theorem pyJoin_nil_sep : ∀ l : List Str, pyJoin [] l = l.flatten := by
  intro l
  induction l with
  | nil => rfl
  | cons d rest ih =>
    cases rest with
    | nil => simp [pyJoin]
    | cons e es =>
      rw [pyJoin_cons_of_ne_nil [] d _ (by simp), ih]
      simp

/-- While the accumulated total plus the incoming piece stays within
`chunk_size`, `_merge_splits` accumulates everything into one final joined
chunk. -/
theorem mergeGo_no_flush : ∀ (splits docs current : List Str) (total : ℤ),
    total = (current.flatten.length : ℤ) →
    (current ++ splits).flatten.length ≤ chunkSize →
    mergeGo [] splits docs current total =
      docs ++ optToList (joinDocs [] (current ++ splits)) := by
  intro splits
  induction splits with
  | nil =>
    intro docs current total htot hb
    simp [mergeGo]
  | cons d rest ih =>
    intro docs current total htot hb
    have hflat : (current ++ d :: rest).flatten.length =
        current.flatten.length + (d.length + rest.flatten.length) := by
      simp [List.flatten_append, List.length_append]
    have hb' : current.flatten.length + d.length ≤ chunkSize := by omega
    have hcond : ¬(total + (d.length : ℤ) +
        (if current = [] then 0 else (([] : Str).length : ℤ)) > (chunkSize : ℤ)) := by
      subst htot
      simp only [List.length_nil, Nat.cast_zero, ite_self, add_zero]
      omega
    have htot' : total + (d.length : ℤ) +
        (if current = [] then 0 else (([] : Str).length : ℤ)) =
        (((current ++ [d]).flatten.length : ℕ) : ℤ) := by
      subst htot
      simp only [List.length_nil, Nat.cast_zero, ite_self, add_zero,
        List.flatten_append, List.length_append]
      simp
    unfold mergeGo
    rw [if_neg hcond]
    rw [ih docs (current ++ [d]) _ htot'
      (by simpa [List.append_assoc] using hb)]
    simp [List.append_assoc]

/-- When every piece is shorter than `chunk_size`, the `_split_text` loop never
recurses: it merges everything it accumulated. -/
theorem processSplits_all_good (recFn : Str → List Str) :
    ∀ (splits good : List Str), (∀ s ∈ splits, s.length < chunkSize) →
      processSplits recFn splits good =
        if good ++ splits = [] then [] else mergeSplits [] (good ++ splits) := by
  intro splits
  induction splits with
  | nil =>
    intro good h
    simp [processSplits]
  | cons s rest ih =>
    intro good h
    have hs := h s (by simp)
    unfold processSplits
    rw [if_pos hs, ih (good ++ [s]) (fun x hx => h x (by simp [hx]))]
    have hl : good ++ [s] ++ rest = good ++ s :: rest := by simp
    rw [hl]

/-- A text shorter than `chunk_size` splits into exactly its stripped self —
or into nothing at all when it strips to empty. -/
theorem splitRecF_short (fuel : Nat) (text : Str) (seps : List Str)
    (h : text.length < chunkSize) :
    splitRecF (fuel + 1) text seps =
      if pyStrip text = [] then [] else [pyStrip text] := by
  simp only [splitRecF]
  have hflat := splitWithSep_flatten (chooseSep text seps).1 text
  have hshort : ∀ p ∈ splitWithSep (chooseSep text seps).1 text,
      p.length < chunkSize := by
    intro p hp
    have := length_le_flatten _ p hp
    rw [hflat] at this
    omega
  rw [processSplits_all_good _ _ [] hshort]
  simp only [List.nil_append]
  by_cases hsp : splitWithSep (chooseSep text seps).1 text = []
  · rw [if_pos hsp]
    have htext : text = [] := by
      rw [← hflat, hsp]
      rfl
    subst htext
    simp [pyStrip]
  · rw [if_neg hsp]
    unfold mergeSplits
    rw [mergeGo_no_flush _ [] [] 0 (by simp) (by simp [hflat]; omega)]
    simp only [List.nil_append]
    unfold joinDocs optToList
    rw [pyJoin_nil_sep, hflat]
    by_cases hstr : pyStrip text = []
    · simp [hstr]
    · simp [hstr]

theorem mem_dropWhile_of_not {p : Char → Bool} :
    ∀ (l : Str) (c : Char), c ∈ l → p c = false → c ∈ l.dropWhile p := by
  intro l
  induction l with
  | nil => intro c hc _; simp at hc
  | cons a as ih =>
    intro c hc hp
    rw [List.dropWhile_cons]
    by_cases ha : p a = true
    · rw [if_pos ha]
      rcases List.mem_cons.mp hc with rfl | hc
      · rw [hp] at ha
        cases ha
      · exact ih c hc hp
    · rw [if_neg ha]
      exact hc

theorem mem_pyStrip (s : Str) (c : Char) (hc : c ∈ s) (hw : pyIsSpace c = false) :
    c ∈ pyStrip s := by
  unfold pyStrip
  exact List.mem_reverse.mpr
    (mem_dropWhile_of_not _ c (List.mem_reverse.mpr
      (mem_dropWhile_of_not _ c hc hw)) hw)

theorem mem_pyJoin_of_mem (sep : Str) :
    ∀ (docs : List Str) (d : Str) (c : Char), d ∈ docs → c ∈ d →
      c ∈ pyJoin sep docs := by
  intro docs
  induction docs with
  | nil => intro d c hd _; simp at hd
  | cons e es ih =>
    intro d c hd hc
    cases es with
    | nil =>
      rcases List.mem_singleton.mp hd with rfl
      exact hc
    | cons f fs =>
      rw [pyJoin_cons_of_ne_nil sep e _ (by simp)]
      rcases List.mem_cons.mp hd with rfl | hd
      · exact List.mem_append.mpr (Or.inl (List.mem_append.mpr (Or.inl hc)))
      · exact List.mem_append.mpr (Or.inr (ih d c hd hc))

theorem joinDocs_cov (sep : Str) (current : List Str) (c : Char)
    (hc : c ∈ current.flatten) (hw : pyIsSpace c = false) :
    ∃ doc, joinDocs sep current = some doc ∧ c ∈ doc := by
  rcases List.mem_flatten.mp hc with ⟨d, hd, hcd⟩
  have h1 : c ∈ pyJoin sep current := mem_pyJoin_of_mem sep current d c hd hcd
  have h2 : c ∈ pyStrip (pyJoin sep current) := mem_pyStrip _ c h1 hw
  have h3 : ¬pyStrip (pyJoin sep current) = [] := List.ne_nil_of_mem h2
  simp only [joinDocs]
  rw [if_neg h3]
  exact ⟨_, rfl, h2⟩

theorem mergeGo_docs_le (sep : Str) :
    ∀ (splits docs current : List Str) (total : ℤ),
      ∃ tail, mergeGo sep splits docs current total = docs ++ tail := by
  intro splits
  induction splits with
  | nil => intro docs current total; exact ⟨_, rfl⟩
  | cons d rest ih =>
    intro docs current total
    unfold mergeGo
    by_cases h1 : total + (d.length : ℤ) +
        (if current = [] then 0 else (sep.length : ℤ)) > (chunkSize : ℤ)
    · rw [if_pos h1]
      by_cases h2 : current = []
      · rw [if_pos h2]
        exact ih docs _ _
      · rw [if_neg h2]
        obtain ⟨t, ht⟩ := ih (docs ++ optToList (joinDocs sep current)) _ _
        exact ⟨optToList (joinDocs sep current) ++ t, by rw [ht, List.append_assoc]⟩
    · rw [if_neg h1]
      exact ih docs _ _

theorem mem_flatten_append_singleton (x : List Str) (d : Str) (c : Char) :
    c ∈ (x ++ [d]).flatten ↔ c ∈ x.flatten ∨ c ∈ d := by
  simp [List.flatten_append]

/-- Every non-whitespace character fed into `_merge_splits` (through the
pending `current_doc` or the remaining splits) survives into some emitted
chunk: a piece is only dropped from `current_doc` after the flush that
emitted its join, and stripping removes only whitespace. -/
theorem mergeGo_cov (sep : Str) :
    ∀ (splits docs current : List Str) (total : ℤ) (c : Char),
      pyIsSpace c = false → (c ∈ splits.flatten ∨ c ∈ current.flatten) →
      ∃ doc ∈ mergeGo sep splits docs current total, c ∈ doc := by
  intro splits
  induction splits with
  | nil =>
    intro docs current total c hw hc
    rcases hc with hc | hc
    · simp at hc
    · obtain ⟨doc, hjd, hcd⟩ := joinDocs_cov sep current c hc hw
      refine ⟨doc, ?_, hcd⟩
      simp [mergeGo, hjd, optToList]
  | cons d rest ih =>
    intro docs current total c hw hc
    unfold mergeGo
    by_cases h1 : total + (d.length : ℤ) +
        (if current = [] then 0 else (sep.length : ℤ)) > (chunkSize : ℤ)
    · rw [if_pos h1]
      by_cases h2 : current = []
      · rw [if_pos h2]
        apply ih _ _ _ c hw
        rcases hc with hc | hc
        · rcases List.mem_append.mp (by rw [List.flatten_cons] at hc; exact hc) with hcd | hcr
          · right
            exact (mem_flatten_append_singleton current d c).mpr (Or.inr hcd)
          · left
            exact hcr
        · rw [h2] at hc
          simp at hc
      · rw [if_neg h2]
        rcases hc with hc | hc
        · rcases List.mem_append.mp (by rw [List.flatten_cons] at hc; exact hc) with hcd | hcr
          · apply ih _ _ _ c hw
            right
            exact (mem_flatten_append_singleton _ d c).mpr (Or.inr hcd)
          · apply ih _ _ _ c hw
            left
            exact hcr
        · obtain ⟨doc, hjd, hcd⟩ := joinDocs_cov sep current c hc hw
          obtain ⟨tail, htail⟩ := mergeGo_docs_le sep rest
            (docs ++ optToList (joinDocs sep current)) _ _
          refine ⟨doc, ?_, hcd⟩
          rw [htail, hjd]
          simp [optToList]
    · rw [if_neg h1]
      apply ih _ _ _ c hw
      rcases hc with hc | hc
      · rcases List.mem_append.mp (by rw [List.flatten_cons] at hc; exact hc) with hcd | hcr
        · right
          exact (mem_flatten_append_singleton current d c).mpr (Or.inr hcd)
        · left
          exact hcr
      · right
        exact (mem_flatten_append_singleton current d c).mpr (Or.inl hc)

/-- Coverage through the `_split_text` loop: every non-whitespace character of
the splits (or of the pending good splits) ends up in some final chunk,
provided the recursive call `recFn` preserves coverage on the pieces it gets. -/
theorem processSplits_cov (recFn : Str → List Str)
    (hrec : ∀ (s : Str) (c : Char), c ∈ s → pyIsSpace c = false →
      ∃ ch ∈ recFn s, c ∈ ch) :
    ∀ (splits good : List Str) (c : Char), pyIsSpace c = false →
      (c ∈ splits.flatten ∨ c ∈ good.flatten) →
      ∃ ch ∈ processSplits recFn splits good, c ∈ ch := by
  intro splits
  induction splits with
  | nil =>
    intro good c hw hc
    rcases hc with hc | hc
    · simp at hc
    · have hg : ¬good = [] := by
        rintro rfl
        simp at hc
      unfold processSplits mergeSplits
      rw [if_neg hg]
      exact mergeGo_cov [] good [] [] 0 c hw (Or.inl hc)
  | cons s rest ih =>
    intro good c hw hc
    unfold processSplits
    by_cases hs : s.length < chunkSize
    · rw [if_pos hs]
      apply ih (good ++ [s]) c hw
      rcases hc with hc | hc
      · rcases List.mem_append.mp (by rw [List.flatten_cons] at hc; exact hc) with hcd | hcr
        · right
          exact (mem_flatten_append_singleton good s c).mpr (Or.inr hcd)
        · left
          exact hcr
      · right
        exact (mem_flatten_append_singleton good s c).mpr (Or.inl hc)
    · rw [if_neg hs]
      rcases hc with hc | hc
      · rcases List.mem_append.mp (by rw [List.flatten_cons] at hc; exact hc) with hcd | hcr
        · obtain ⟨ch, hch, hcch⟩ := hrec s c hcd hw
          exact ⟨ch, List.mem_append.mpr (Or.inl (List.mem_append.mpr (Or.inr hch))),
            hcch⟩
        · obtain ⟨ch, hch, hcch⟩ := ih [] c hw (Or.inl hcr)
          exact ⟨ch, List.mem_append.mpr (Or.inr hch), hcch⟩
      · have hg : ¬good = [] := by
          rintro rfl
          simp at hc
        rw [if_neg hg]
        unfold mergeSplits
        obtain ⟨ch, hch, hcch⟩ := mergeGo_cov [] good [] [] 0 c hw (Or.inl hc)
        exact ⟨ch, List.mem_append.mpr (Or.inl (List.mem_append.mpr (Or.inl hch))),
          hcch⟩

theorem chooseSep_sub (text : Str) :
    ∀ seps : List Str,
      (chooseSep text seps).2.length < seps.length ∨ (chooseSep text seps).2 = [] := by
  intro seps
  induction seps with
  | nil => right; rfl
  | cons s rest ih =>
    unfold chooseSep
    by_cases h1 : s = []
    · rw [if_pos h1]
      right
      rfl
    · rw [if_neg h1]
      by_cases h2 : pyIn s text = true
      · rw [if_pos h2]
        left
        simp
      · rw [if_neg h2]
        by_cases h3 : rest = []
        · rw [if_pos h3]
          right
          rfl
        · rw [if_neg h3]
          rcases ih with h | h
          · left
            simp only [List.length_cons]
            omega
          · right
            exact h

/-- Coverage through the separator recursion of `_split_text`. -/
theorem splitRecF_cov :
    ∀ (fuel : Nat) (seps : List Str) (text : Str) (c : Char),
      seps.length < fuel → pyIsSpace c = false → c ∈ text →
      ∃ ch ∈ splitRecF fuel text seps, c ∈ ch := by
  intro fuel
  induction fuel with
  | zero =>
    intro seps text c h
    exact absurd h (Nat.not_lt_zero _)
  | succ f ih =>
    intro seps text c hf hw hc
    simp only [splitRecF]
    apply processSplits_cov
    · intro s c' hc' hw'
      by_cases h2 : (chooseSep text seps).2 = []
      · rw [if_pos h2]
        exact ⟨s, by simp, hc'⟩
      · rw [if_neg h2]
        apply ih
        · rcases chooseSep_sub text seps with h | h
          · omega
          · exact absurd h h2
        · exact hw'
        · exact hc'
    · exact hw
    · left
      rw [splitWithSep_flatten]
      exact hc

/-- Claim C6 (amended): every non-whitespace character of the input appears in
at least one produced chunk, but whitespace may be dropped (chunks are
stripped of surrounding whitespace, and fragments that strip to nothing are
discarded).  A text shorter than `chunkSize` (1000) yields exactly one chunk —
the text with its surrounding whitespace stripped — when it contains any
non-whitespace character, and zero chunks when it is empty or
whitespace-only. -/
theorem chunk_coverage (text : Str) :
    (∀ c ∈ text, pyIsSpace c = false → ∃ chunk ∈ splitText text, c ∈ chunk) ∧
    (text.length < chunkSize →
      splitText text = if pyStrip text = [] then [] else [pyStrip text]) := by
  constructor
  · intro c hc hw
    exact splitRecF_cov (defaultSeparators.length + 1) defaultSeparators text c
      (by simp) hw hc
  · intro h
    exact splitRecF_short defaultSeparators.length text defaultSeparators h

/-- Counterexample to claim C6 as stated: the one-character text `" "` is
shorter than `chunkSize` yet yields zero chunks, and its character appears in
no chunk. -/
theorem chunk_coverage_cex :
    ([' '] : Str).length < chunkSize ∧
    splitText [' '] = [] ∧
    (splitText [' ']).length ≠ 1 ∧
    ¬∃ chunk ∈ splitText [' '], ' ' ∈ chunk :=
  ⟨by decide, by decide, by decide, by decide⟩

/-- Witness for C6 (amended) at the concrete text `"  Hi  "`: one chunk,
equal to the stripped text, containing every non-whitespace character. -/
theorem chunk_coverage_witness :
    (∃ chunk ∈ splitText (("  Hi  ").data), 'H' ∈ chunk) ∧
    splitText (("  Hi  ").data) =
      (if pyStrip (("  Hi  ").data) = [] then [] else [pyStrip (("  Hi  ").data)]) ∧
    splitText (("  Hi  ").data) = [("Hi").data] :=
  ⟨(chunk_coverage (("  Hi  ").data)).1 'H' (by decide) (by decide),
    (chunk_coverage (("  Hi  ").data)).2 (by decide),
    by decide⟩

end StoryProc
